import Mathlib

/-!
Verification development for the transwarp task-graph example repository.

The repository source under `src/` contains the client example
`examples/statistical_key_facts.cpp`.  The task-graph engine itself
(`transwarp.h`) is declared and used by that file but its code is not part of
`src/`, so the engine (Node/Graph data model, combinators, scheduler,
executors, result cells) is modelled from the specification: §3 (data model),
§4.1 (combinators), §4.2 (scheduler), §4.3 (executors), §4.4 (failure
propagation), §4.5 (futures).

The statistical helper functions (`average`, `stddev`, `median`, `mode`,
`generate_gamma`) and the graph the example builds are translated directly
from `src/examples/statistical_key_facts.cpp`.  C++ `double` values are
modelled as rationals; `std::sqrt` (used only by `stddev`) and the
gamma-distribution sampler (used only by `generate_gamma`) have no exact
rational counterpart and are taken as arbitrary function parameters, which
every theorem quantifies over.
-/

namespace Transwarp

/-- Modelled from the spec: §3 binding modes attached to dependency edges
(`consume` passes the dependency's result positionally, `wait` only orders). -/
inductive BindMode : Type
  | consume : BindMode
  | wait : BindMode
deriving DecidableEq, Repr

/-- Modelled from the spec: §4.4 failure propagation distinguishes a failure
thrown by the node's own computation from an upstream failure; the upstream
case records which dependency failed. -/
inductive TwError (E : Type) : Type
  | thrown : E → TwError E
  | upstream : Nat → TwError E
deriving DecidableEq

/-- Modelled from the spec: §3 result cell states `pending`, `ready(value)`,
`failed(error)`. -/
inductive Cell (V E : Type) : Type
  | pending : Cell V E
  | ready : V → Cell V E
  | failed : E → Cell V E
deriving DecidableEq

def Cell.isFailed {V E : Type} : Cell V E → Bool
  | .failed _ => true
  | _ => false

def Cell.isReady {V E : Type} : Cell V E → Bool
  | .ready _ => true
  | _ => false

/-- Modelled from the spec: §3 Node — a label, an ordered dependency list of
(upstream node id, binding mode) pairs, and a deferred computation receiving
the consume-dependencies' results in declared order.  Heterogeneous node
results are modelled by a single type-erased value type `V` (spec §9).
The computation also receives the per-pass external environment `Env`,
modelling state a computation closes over (spec §4.1 root nodes). -/
structure WNode (V E Env : Type) : Type where
  label : String
  deps : List (Nat × BindMode)
  compute : Env → List V → Except E V

/-- Modelled from the spec: §3 Graph — the node set reachable from the final
node, in construction order.  Combinators only let a node depend on
previously constructed nodes (spec §3 acyclicity invariant), so every
dependency id is smaller than the dependent's id. -/
structure WGraph (V E Env : Type) : Type where
  nodes : List (WNode V E Env)
  wf : ∀ i, (h : i < nodes.length) → ∀ d ∈ (nodes.get ⟨i, h⟩).deps, d.1 < i

variable {V E Env : Type}

/-- The dependency list of node `i`, empty for out-of-range ids. -/
def depsOf (g : WGraph V E Env) (i : Nat) : List (Nat × BindMode) :=
  match g.nodes.get? i with
  | some nd => nd.deps
  | none => []

/-- Each dependency of a node paired with that dependency's current cell. -/
def depCells (nd : WNode V E Env) (cellOf : Nat → Cell V (TwError E)) :
    List ((Nat × BindMode) × Cell V (TwError E)) :=
  nd.deps.map (fun d => (d, cellOf d.1))

/-- The values of the `consume`-mode dependencies, in declared order
(spec §4.1: `compute` receives the results of its consume dependencies
positionally). -/
def consumeArgs (nd : WNode V E Env) (cellOf : Nat → Cell V (TwError E)) :
    List V :=
  (depCells nd cellOf).filterMap (fun p =>
    match p.1.2, p.2 with
    | BindMode.consume, Cell.ready v => some v
    | _, _ => none)

/-- Whether every dependency of `nd` is `ready`, the condition under which the
scheduler invokes the node's computation (spec §4.2 step 3/4 and §4.4). -/
def depsAllReady (nd : WNode V E Env) (cellOf : Nat → Cell V (TwError E)) :
    Bool :=
  (depCells nd cellOf).all (fun p => p.2.isReady)

/-- Modelled from the spec: §4.2/§4.4 — the cell a node's dispatch produces,
given the cells of its dependencies: if some dependency `failed`, the node is
not invoked and fails with an upstream marker; if all dependencies are
`ready`, its computation runs on the consume-dependency values and stores
`ready` or `failed`; otherwise (a dependency still `pending`, impossible in a
valid scheduling order) the node stays `pending`. -/
def stepCell (nd : WNode V E Env) (env : Env)
    (cellOf : Nat → Cell V (TwError E)) : Cell V (TwError E) :=
  match (depCells nd cellOf).find? (fun p => p.2.isFailed) with
  | some p => Cell.failed (TwError.upstream p.1.1)
  | none =>
    if depsAllReady nd cellOf then
      match nd.compute env (consumeArgs nd cellOf) with
      | Except.ok v => Cell.ready v
      | Except.error e => Cell.failed (TwError.thrown e)
    else Cell.pending

/-- Modelled from the spec: the order-independent denotation of one pass —
the cell node `i` ends the pass with, defined by recursion on the node id
(dependencies have smaller ids). -/
def evalCell (g : WGraph V E Env) (env : Env) (i : Nat) :
    Cell V (TwError E) :=
  if h : i < g.nodes.length then
    let nd := g.nodes.get ⟨i, h⟩
    let dc : List ((Nat × BindMode) × Cell V (TwError E)) :=
      nd.deps.attach.map
        (fun (d : {x // x ∈ (g.nodes.get ⟨i, h⟩).deps}) =>
          have hlt : d.1.1 < i := g.wf i h d.1 d.2
          (d.1, evalCell g env d.1.1))
    match dc.find? (fun p => p.2.isFailed) with
    | some p => Cell.failed (TwError.upstream p.1.1)
    | none =>
      if dc.all (fun p => p.2.isReady) then
        match nd.compute env (dc.filterMap (fun p =>
          match p.1.2, p.2 with
          | BindMode.consume, Cell.ready v => some v
          | _, _ => none)) with
        | Except.ok v => Cell.ready v
        | Except.error e => Cell.failed (TwError.thrown e)
      else Cell.pending
  else Cell.pending
termination_by i
decreasing_by exact hlt

theorem evalCell_lt (g : WGraph V E Env) (env : Env) (i : Nat)
    (h : i < g.nodes.length) :
    evalCell g env i = stepCell (g.nodes.get ⟨i, h⟩) env (evalCell g env) := by
  rw [evalCell]
  simp only [h, dif_pos]
  have hmap : ((g.nodes.get ⟨i, h⟩).deps.attach.map
        (fun (d : {x // x ∈ (g.nodes.get ⟨i, h⟩).deps}) =>
          (d.1, evalCell g env d.1.1)))
      = depCells (g.nodes.get ⟨i, h⟩) (evalCell g env) := by
    rw [depCells]
    exact List.attach_map_val _
      (fun (d : Nat × BindMode) => (d, evalCell g env d.1))
  rw [hmap, stepCell, consumeArgs, depsAllReady]

/-- Modelled from the spec: §3/§4.2 — the mutable state of one "schedule all"
pass: every node's result cell (all reset to `pending` at the start of the
pass, spec §4.2 step 1), plus the ordered record of computation invocations
(node id and the argument values its `compute` received). -/
structure PassState (V E : Type) : Type where
  cells : Nat → Cell V (TwError E)
  invoked : List (Nat × List V)

def initPass : PassState V E :=
  { cells := fun _ => Cell.pending, invoked := [] }

/-- Modelled from the spec: §4.2 step 4 — dispatching one node: its cell is
set from its dependencies' cells, and its computation is invoked exactly when
every dependency is `ready` (a failed dependency suppresses the invocation,
spec §4.4). -/
def processNode (g : WGraph V E Env) (env : Env) (s : PassState V E)
    (i : Nat) : PassState V E :=
  if h : i < g.nodes.length then
    let nd := g.nodes.get ⟨i, h⟩
    { cells := fun j => if j = i then stepCell nd env s.cells else s.cells j
      invoked :=
        if depsAllReady nd s.cells then
          s.invoked ++ [(i, consumeArgs nd s.cells)]
        else s.invoked }
  else s

/-- Modelled from the spec: §4.2 — one full "schedule all" pass, as the fold
of node dispatches over a dispatch order.  The dispatch order abstracts the
executor: the sequential executor produces one fixed dependency-respecting
order, the parallel executor an arbitrary one (spec §4.2 tie-break policy);
`ValidOrder` below captures exactly the orders the in-degree/ready-set
protocol can produce. -/
def runPass (g : WGraph V E Env) (env : Env) (order : List Nat) :
    PassState V E :=
  order.foldl (processNode g env) initPass

/-- Modelled from the spec: §4.2 — a dispatch order the scheduler can
produce: each reachable node exactly once, and every dependency dispatched
before its dependent. -/
def ValidOrder (g : WGraph V E Env) (order : List Nat) : Prop :=
  order.Nodup ∧
  (∀ i, i < g.nodes.length → i ∈ order) ∧
  (∀ i ∈ order, i < g.nodes.length) ∧
  ∀ k, (hk : k < order.length) →
    ∀ d ∈ depsOf g (order.get ⟨k, hk⟩), d.1 ∈ order.take k

theorem depsOf_lt (g : WGraph V E Env) (i : Nat) (h : i < g.nodes.length) :
    depsOf g i = (g.nodes.get ⟨i, h⟩).deps := by
  rw [depsOf, List.get?_eq_get h]

theorem depCells_congr (nd : WNode V E Env)
    (c₁ c₂ : Nat → Cell V (TwError E))
    (h : ∀ d ∈ nd.deps, c₁ d.1 = c₂ d.1) :
    depCells nd c₁ = depCells nd c₂ := by
  rw [depCells, depCells]
  exact List.map_congr_left (fun d hd => by rw [h d hd])

theorem stepCell_congr (nd : WNode V E Env) (env : Env)
    (c₁ c₂ : Nat → Cell V (TwError E))
    (h : ∀ d ∈ nd.deps, c₁ d.1 = c₂ d.1) :
    stepCell nd env c₁ = stepCell nd env c₂ := by
  rw [stepCell, stepCell, consumeArgs, consumeArgs, depsAllReady,
    depsAllReady, depCells_congr nd c₁ c₂ h]

theorem depsAllReady_congr (nd : WNode V E Env)
    (c₁ c₂ : Nat → Cell V (TwError E))
    (h : ∀ d ∈ nd.deps, c₁ d.1 = c₂ d.1) :
    depsAllReady nd c₁ = depsAllReady nd c₂ := by
  rw [depsAllReady, depsAllReady, depCells_congr nd c₁ c₂ h]

theorem consumeArgs_congr (nd : WNode V E Env)
    (c₁ c₂ : Nat → Cell V (TwError E))
    (h : ∀ d ∈ nd.deps, c₁ d.1 = c₂ d.1) :
    consumeArgs nd c₁ = consumeArgs nd c₂ := by
  rw [consumeArgs, consumeArgs, depCells_congr nd c₁ c₂ h]

/-- The invocation record `runPass` produces for node `i` under any valid
order: `some (i, args)` exactly when all of `i`'s dependencies resolve
`ready`, with `args` the consume-dependency values. -/
def invokeEntry (g : WGraph V E Env) (env : Env) (i : Nat) :
    Option (Nat × List V) :=
  match g.nodes.get? i with
  | some nd =>
    if depsAllReady nd (evalCell g env) then
      some (i, consumeArgs nd (evalCell g env))
    else none
  | none => none

/-- Invariant of the scheduling fold: after dispatching the first `k` nodes
of a valid order, the dispatched nodes' cells agree with the order-free
denotation `evalCell`, all other cells are still `pending`, and the
invocation record is exactly the dispatched prefix filtered by readiness. -/
theorem runPass_take_invariant (g : WGraph V E Env) (env : Env)
    (order : List Nat) (hv : ValidOrder g order) :
    ∀ k, k ≤ order.length →
      (∀ i ∈ order.take k,
        (runPass g env (order.take k)).cells i = evalCell g env i) ∧
      (∀ i, i ∉ order.take k →
        (runPass g env (order.take k)).cells i = Cell.pending) ∧
      (runPass g env (order.take k)).invoked
        = (order.take k).filterMap (invokeEntry g env) := by
  intro k
  induction k with
  | zero => intro _; refine ⟨by simp, ?_, by simp [runPass, initPass]⟩
            intro i _; simp [runPass, initPass]
  | succ k ih =>
    intro hk1
    have hk : k < order.length := Nat.lt_of_succ_le hk1
    obtain ⟨ihc, ihp, ihv⟩ := ih (Nat.le_of_lt hk)
    have htake : order.take (k + 1) = order.take k ++ [order[k]] := by
      rw [List.take_succ, List.getElem?_eq_getElem hk]
      rfl
    have hilen : order[k] < g.nodes.length :=
      hv.2.2.1 order[k] (List.getElem_mem hk)
    have hrun : runPass g env (order.take (k + 1))
        = processNode g env (runPass g env (order.take k)) order[k] := by
      rw [htake, runPass, List.foldl_append]
      rfl
    have hnotmem : order[k] ∉ order.take k := by
      intro hmem
      rw [List.mem_take_iff_getElem] at hmem
      obtain ⟨m, hm, hme⟩ := hmem
      have hmk : m < k := Nat.lt_of_lt_of_le hm (Nat.min_le_left _ _)
      have hinj := List.nodup_iff_injective_getElem.mp hv.1
      have : (⟨m, Nat.lt_trans hmk hk⟩ : Fin order.length)
          = ⟨k, hk⟩ := hinj hme
      exact Nat.ne_of_lt hmk (congrArg Fin.val this)
    have hdeps : ∀ d ∈ (g.nodes.get ⟨order[k], hilen⟩).deps,
        d.1 ∈ order.take k := by
      intro d hd
      have := hv.2.2.2 k hk
      rw [List.get_eq_getElem] at this
      exact this d (by rw [depsOf_lt g order[k] hilen]; exact hd)
    have hcong : ∀ d ∈ (g.nodes.get ⟨order[k], hilen⟩).deps,
        (runPass g env (order.take k)).cells d.1 = evalCell g env d.1 := by
      intro d hd
      exact ihc d.1 (hdeps d hd)
    have hproc : processNode g env (runPass g env (order.take k)) order[k]
        = { cells := fun j => if j = order[k]
              then stepCell (g.nodes.get ⟨order[k], hilen⟩) env
                (runPass g env (order.take k)).cells
              else (runPass g env (order.take k)).cells j
            invoked :=
              if depsAllReady (g.nodes.get ⟨order[k], hilen⟩)
                  (runPass g env (order.take k)).cells then
                (runPass g env (order.take k)).invoked
                  ++ [(order[k], consumeArgs (g.nodes.get ⟨order[k], hilen⟩)
                        (runPass g env (order.take k)).cells)]
              else (runPass g env (order.take k)).invoked } := by
      rw [processNode]
      simp only [hilen, dif_pos]
    have hstep : stepCell (g.nodes.get ⟨order[k], hilen⟩) env
          (runPass g env (order.take k)).cells = evalCell g env order[k] := by
      rw [stepCell_congr _ env _ (evalCell g env) hcong,
        ← evalCell_lt g env order[k] hilen]
    refine ⟨?_, ?_, ?_⟩
    · intro i hi
      rw [htake, List.mem_append] at hi
      rw [hrun, hproc]
      rcases hi with hi | hi
      · have hne : i ≠ order[k] := fun he => hnotmem (he ▸ hi)
        simp only [hne, if_neg]
        exact ihc i hi
      · rw [List.mem_singleton] at hi
        subst hi
        simp only [if_pos]
        exact hstep
    · intro i hi
      rw [htake] at hi
      have hi1 : i ∉ order.take k := fun hm => hi (List.mem_append_left _ hm)
      have hi2 : i ≠ order[k] := by
        intro he
        exact hi (List.mem_append_right _ (by rw [he]; exact List.mem_singleton_self _))
      rw [hrun, hproc]
      simp only [hi2, if_neg]
      exact ihp i hi1
    · rw [hrun, hproc]
      simp only
      rw [htake, List.filterMap_append, ← ihv]
      have hentry : invokeEntry g env order[k]
          = if depsAllReady (g.nodes.get ⟨order[k], hilen⟩) (evalCell g env)
            then some (order[k], consumeArgs (g.nodes.get ⟨order[k], hilen⟩)
              (evalCell g env))
            else none := by
        rw [invokeEntry, List.get?_eq_get hilen]
      rw [depsAllReady_congr _ _ (evalCell g env) hcong,
        consumeArgs_congr _ _ (evalCell g env) hcong]
      by_cases hr : depsAllReady (g.nodes.get ⟨order[k], hilen⟩)
          (evalCell g env)
      · rw [if_pos hr]
        have hsome : invokeEntry g env order[k]
            = some (order[k], consumeArgs (g.nodes.get ⟨order[k], hilen⟩)
                (evalCell g env)) := by
          rw [hentry, if_pos hr]
        simp only [List.filterMap_cons, List.filterMap_nil, hsome]
      · rw [if_neg hr]
        have hnone : invokeEntry g env order[k] = none := by
          rw [hentry, if_neg hr]
        simp [hnone]

/-- Under any valid order, the pass resolves every reachable node to its
order-free denotation. -/
theorem runPass_cells_eq (g : WGraph V E Env) (env : Env)
    (order : List Nat) (hv : ValidOrder g order) (i : Nat)
    (hi : i < g.nodes.length) :
    (runPass g env order).cells i = evalCell g env i := by
  have := (runPass_take_invariant g env order hv order.length
    (Nat.le_refl _)).1
  rw [List.take_length] at this
  exact this i (hv.2.1 i hi)

/-- Under any valid order, the invocation record is the order filtered by
readiness of each node's dependencies. -/
theorem runPass_invoked_eq (g : WGraph V E Env) (env : Env)
    (order : List Nat) (hv : ValidOrder g order) :
    (runPass g env order).invoked = order.filterMap (invokeEntry g env) := by
  have := (runPass_take_invariant g env order hv order.length
    (Nat.le_refl _)).2.2
  rwa [List.take_length] at this

/-- Generic list fact: projecting the first components out of a `filterMap`
whose function only produces entries keyed by the input element gives a
`filter` of the input list. -/
theorem filterMap_map_fst {α β : Type} (l : List α) (f : α → Option (α × β))
    (hf : ∀ a p, f a = some p → p.1 = a) :
    (l.filterMap f).map Prod.fst = l.filter (fun a => (f a).isSome) := by
  induction l with
  | nil => rfl
  | cons a l ih =>
    rw [List.filterMap_cons]
    cases hfa : f a with
    | none => rw [List.filter_cons, ih]; simp [hfa]
    | some p =>
      rw [List.map_cons, ih, List.filter_cons]
      simp only [hfa, Option.isSome_some, if_pos]
      rw [hf a p hfa]

/-- An entry of the invocation record under a valid order: node `i` was
invoked with arguments `args` iff `i` is reachable, all its dependencies
resolve `ready`, and `args` are their values. -/
theorem runPass_invoked_mem (g : WGraph V E Env) (env : Env)
    (order : List Nat) (hv : ValidOrder g order) (i : Nat) (args : List V) :
    ((i, args) ∈ (runPass g env order).invoked
      ↔ i ∈ order ∧ invokeEntry g env i = some (i, args)) := by
  rw [runPass_invoked_eq g env order hv, List.mem_filterMap]
  constructor
  · rintro ⟨a, ha, hfa⟩
    have : a = i := by
      rw [invokeEntry] at hfa
      cases hga : g.nodes.get? a with
      | none => rw [hga] at hfa; exact absurd hfa (by simp)
      | some nd =>
        simp only [hga] at hfa
        by_cases hr : depsAllReady nd (evalCell g env)
        · rw [if_pos hr] at hfa
          exact (Prod.mk.injEq _ _ _ _ ▸ Option.some.inj hfa).1.symm ▸ rfl
        · rw [if_neg hr] at hfa; exact absurd hfa (by simp)
    exact ⟨this ▸ ha, this ▸ hfa⟩
  · rintro ⟨hmem, hseq⟩
    exact ⟨i, hmem, hseq⟩

theorem invokeEntry_fst (g : WGraph V E Env) (env : Env) :
    ∀ a p, invokeEntry g env a = some p → p.1 = a := by
  intro a p hfa
  rw [invokeEntry] at hfa
  cases hga : g.nodes.get? a with
  | none => rw [hga] at hfa; exact absurd hfa (by simp)
  | some nd =>
    simp only [hga] at hfa
    by_cases hr : depsAllReady nd (evalCell g env)
    · rw [if_pos hr] at hfa
      exact (congrArg Prod.fst (Option.some.inj hfa)).symm
    · rw [if_neg hr] at hfa; exact absurd hfa (by simp)

/-- The ids in the invocation record, under a valid order, are the order
filtered by readiness; in particular they are duplicate-free. -/
theorem runPass_invoked_ids (g : WGraph V E Env) (env : Env)
    (order : List Nat) (hv : ValidOrder g order) :
    (runPass g env order).invoked.map Prod.fst
      = order.filter (fun a => (invokeEntry g env a).isSome) := by
  rw [runPass_invoked_eq g env order hv]
  exact filterMap_map_fst order _ (invokeEntry_fst g env)

theorem runPass_invoked_nodup (g : WGraph V E Env) (env : Env)
    (order : List Nat) (hv : ValidOrder g order) :
    ((runPass g env order).invoked.map Prod.fst).Nodup := by
  rw [runPass_invoked_ids g env order hv]
  exact hv.1.filter _

/-- Modelled from the spec: §4.4/§8 — `Desc g a b` holds when there is a
(non-empty) dependency path from node `a` up to node `b`, i.e. `b` transitively
depends on `a`. -/
inductive Desc (g : WGraph V E Env) : Nat → Nat → Prop
  | single {a b : Nat} (d : Nat × BindMode) (hd : d ∈ depsOf g b)
      (he : d.1 = a) : Desc g a b
  | tail {a b c : Nat} (hab : Desc g a b) (d : Nat × BindMode)
      (hd : d ∈ depsOf g c) (he : d.1 = b) : Desc g a c

theorem depsOf_mem_lt (g : WGraph V E Env) (b : Nat) (d : Nat × BindMode)
    (hd : d ∈ depsOf g b) : d.1 < b := by
  by_cases hb : b < g.nodes.length
  · rw [depsOf_lt g b hb] at hd
    exact g.wf b hb d hd
  · rw [depsOf, List.get?_eq_none.mpr (Nat.le_of_not_lt hb)] at hd
    exact absurd hd (List.not_mem_nil d)

theorem Desc.lt {g : WGraph V E Env} {a b : Nat} (h : Desc g a b) : a < b := by
  induction h with
  | single d hd he => exact he ▸ depsOf_mem_lt g _ d hd
  | tail hab d hd he ih => exact Nat.lt_trans ih (he ▸ depsOf_mem_lt g _ d hd)

/-- Failure confinement (spec §4.4): if none of a node's transitive
dependencies can fail, its own cell resolves from its own computation —
in particular a node not downstream of the failing node, and distinct from
it, runs and its cell is `ready` when its computation succeeds. -/
theorem evalCell_ready_of_not_desc (g : WGraph V E Env) (env : Env) (f : Nat)
    (hok : ∀ i, (hi : i < g.nodes.length) → i ≠ f → ¬Desc g f i →
      ∀ args, ∃ v, (g.nodes.get ⟨i, hi⟩).compute env args = Except.ok v) :
    ∀ i, (hi : i < g.nodes.length) → i ≠ f → ¬Desc g f i →
      ∃ v, evalCell g env i = Cell.ready v := by
  intro i
  induction i using Nat.strong_induction_on with
  | _ i ih =>
    intro hi hne hnd
    have hdr : ∀ d ∈ (g.nodes.get ⟨i, hi⟩).deps,
        ∃ v, evalCell g env d.1 = Cell.ready v := by
      intro d hd
      have hdmem : d ∈ depsOf g i := by rw [depsOf_lt g i hi]; exact hd
      have hdlt : d.1 < i := g.wf i hi d hd
      have hdne : d.1 ≠ f := by
        intro he
        exact hnd (Desc.single d hdmem he)
      have hdnd : ¬Desc g f d.1 := by
        intro hdesc
        exact hnd (Desc.tail hdesc d hdmem rfl)
      exact ih d.1 hdlt (Nat.lt_trans hdlt hi) hdne hdnd
    rw [evalCell_lt g env i hi, stepCell]
    have hfind : (depCells (g.nodes.get ⟨i, hi⟩) (evalCell g env)).find?
        (fun p => p.2.isFailed) = none := by
      rw [List.find?_eq_none]
      intro p hp
      rw [depCells, List.mem_map] at hp
      obtain ⟨d, hd, rfl⟩ := hp
      obtain ⟨v, hv⟩ := hdr d hd
      rw [hv]
      simp [Cell.isFailed]
    rw [hfind]
    have hready : depsAllReady (g.nodes.get ⟨i, hi⟩) (evalCell g env) = true := by
      rw [depsAllReady, List.all_eq_true]
      intro p hp
      rw [depCells, List.mem_map] at hp
      obtain ⟨d, hd, rfl⟩ := hp
      obtain ⟨v, hv⟩ := hdr d hd
      rw [hv]
      simp [Cell.isReady]
    rw [hready]
    obtain ⟨v, hv⟩ := hok i hi hne hnd
      (consumeArgs (g.nodes.get ⟨i, hi⟩) (evalCell g env))
    rw [if_pos rfl, hv]
    exact ⟨v, rfl⟩

/-- Failure propagation (spec §4.4): every node downstream of a node whose
cell is `failed` ends the pass `failed` with an upstream cause, and is never
invoked. -/
theorem evalCell_failed_of_desc (g : WGraph V E Env) (env : Env) (f : Nat)
    (hfail : (evalCell g env f).isFailed = true) :
    ∀ i, Desc g f i → (∃ j, evalCell g env i
        = Cell.failed (TwError.upstream j))
      ∧ invokeEntry g env i = none := by
  have key : ∀ i, (∃ d, d ∈ depsOf g i
        ∧ (evalCell g env d.1).isFailed = true) →
      (∃ j, evalCell g env i = Cell.failed (TwError.upstream j))
        ∧ invokeEntry g env i = none := by
    intro i ⟨d, hd, hdf⟩
    have hi : i < g.nodes.length := by
      by_contra hni
      rw [depsOf, List.get?_eq_none.mpr (Nat.le_of_not_lt hni)] at hd
      exact absurd hd (List.not_mem_nil d)
    have hdmem : d ∈ (g.nodes.get ⟨i, hi⟩).deps := by
      rw [depsOf_lt g i hi] at hd; exact hd
    have hsome : ∃ p, (depCells (g.nodes.get ⟨i, hi⟩) (evalCell g env)).find?
        (fun p => p.2.isFailed) = some p := by
      apply Option.ne_none_iff_exists'.mp
      rw [Ne, List.find?_eq_none]
      push_neg
      exact ⟨(d, evalCell g env d.1),
        by rw [depCells, List.mem_map]; exact ⟨d, hdmem, rfl⟩, hdf⟩
    obtain ⟨p, hp⟩ := hsome
    have hnready : depsAllReady (g.nodes.get ⟨i, hi⟩) (evalCell g env)
        = false := by
      have hpf := List.find?_some hp
      have hpmem := List.mem_of_find?_eq_some hp
      rw [depsAllReady]
      rw [List.all_eq_false]
      refine ⟨p, hpmem, ?_⟩
      cases hc : p.2 with
      | pending => simp [Cell.isReady]
      | ready v => rw [hc] at hpf; simp [Cell.isFailed] at hpf
      | failed e => simp [Cell.isReady]
    constructor
    · rw [evalCell_lt g env i hi, stepCell, hp]
      exact ⟨p.1.1, rfl⟩
    · simp only [invokeEntry, List.get?_eq_get hi]
      rw [hnready]
      simp
  intro i hdesc
  induction hdesc with
  | single d hd he => exact key _ ⟨d, hd, he ▸ hfail⟩
  | tail hab d hd he ih =>
    obtain ⟨⟨j, hj⟩, _⟩ := ih
    exact key _ ⟨d, hd, by rw [he, hj]; rfl⟩

/-- The cell `evalCell` assigns to an in-range node is never `pending`: one
pass resolves every reachable node (spec §4.2 step 5). -/
theorem evalCell_ne_pending (g : WGraph V E Env) (env : Env) :
    ∀ i, i < g.nodes.length → evalCell g env i ≠ Cell.pending := by
  intro i
  induction i using Nat.strong_induction_on with
  | _ i ih =>
    intro hi
    rw [evalCell_lt g env i hi, stepCell]
    cases hfind : (depCells (g.nodes.get ⟨i, hi⟩) (evalCell g env)).find?
        (fun p => p.2.isFailed) with
    | some p => simp
    | none =>
      simp only
      by_cases hready : depsAllReady (g.nodes.get ⟨i, hi⟩) (evalCell g env)
      · simp only [hready, if_pos]
        cases (g.nodes.get ⟨i, hi⟩).compute env
            (consumeArgs (g.nodes.get ⟨i, hi⟩) (evalCell g env)) <;> simp
      · exfalso
        rw [depsAllReady, List.all_eq_true] at hready
        push_neg at hready
        obtain ⟨p, hp, hnr⟩ := hready
        rw [depCells, List.mem_map] at hp
        obtain ⟨d, hd, rfl⟩ := hp
        have hnf := List.find?_eq_none.mp hfind _
          (by rw [depCells, List.mem_map]; exact ⟨d, hd, rfl⟩)
        have hdlt : d.1 < i := g.wf i hi d hd
        have := ih d.1 hdlt (Nat.lt_trans hdlt hi)
        cases hcell : evalCell g env d.1 with
        | pending => exact this hcell
        | ready v => rw [hcell] at hnr; simp [Cell.isReady] at hnr
        | failed e => rw [hcell] at hnf; simp [Cell.isFailed] at hnf

/-!  Statistical helpers, translated from
`src/examples/statistical_key_facts.cpp`.  C++ `double` is modelled as `ℚ`;
`std::sqrt` is an arbitrary function parameter `sq`. -/

/-- C++ `static_cast<int>` on a floating value: truncation toward zero. -/
def truncQ (q : ℚ) : ℤ := if 0 ≤ q then ⌊q⌋ else ⌈q⌉

/-- `std::sort(copy.begin(), copy.end())`, as a sorting function on lists. -/
def sortQ (l : List ℚ) : List ℚ := List.insertionSort (fun a b : ℚ => a ≤ b) l

/-- `average` (line 24): `std::accumulate(begin, end, 0.) / size`. -/
def average (data : List ℚ) : ℚ :=
  data.foldl (fun acc x => acc + x) 0 / (data.length : ℚ)

/-- The divisor `static_cast<double>(data->size())` appearing in `average`
(and in `stddev`). -/
def averageDenom (data : List ℚ) : ℚ := (data.length : ℚ)

/-- `stddev` (line 28): `sqrt(sum((x - average)^2) / size)`; the `for_each`
accumulation is a left fold, `std::sqrt` is the parameter `sq`. -/
def stddev (sq : ℚ → ℚ) (data : List ℚ) (avg : ℚ) : ℚ :=
  sq ((data.foldl (fun sum x => sum + (x - avg) ^ 2) 0) / (data.length : ℚ))

/-- `median` (line 35): sorts a copy and indexes it.  Element accesses are
`Option`-valued so an out-of-bounds index (possible only for empty data;
for size 0 the C++ `size/2 - 1` underflows and both indexings are out of
bounds) yields `none`. -/
def medianAccess (data : List ℚ) : Option ℚ :=
  let copy := sortQ data
  if data.length % 2 = 0 then
    match copy.get? (data.length / 2 - 1), copy.get? (data.length / 2) with
    | some a, some b => some ((a + b) / 2)
    | _, _ => none
  else copy.get? (data.length / 2)

/-- Total version of `median` used by the task graph (the example never runs
it on empty data when `sample_size > 0`). -/
def median (data : List ℚ) : ℚ := (medianAccess data).getD 0

/-- The running state of `mode`'s `for_each` loop (line 51): the current run
value `number`, the best-so-far `mode`, the current run length `count` and
the best committed run length `count_mode`. -/
structure ModeState : Type where
  number : ℤ
  mode : ℤ
  count : ℤ
  count_mode : ℤ
deriving DecidableEq

/-- One iteration of `mode`'s loop body (lines 52-63). -/
def modeStep (s : ModeState) (x : ℚ) : ModeState :=
  if truncQ x = s.number then { s with count := s.count + 1 }
  else
    let s1 := if s.count > s.count_mode
      then { s with count_mode := s.count, mode := s.number }
      else s
    { s1 with count := 1, number := truncQ x }

/-- `mode` (line 44): sorts a copy, reads `*copy.begin()` (out of bounds on
empty data, modelled as `none`), then folds the loop body over the rest. -/
def modeAccess (data : List ℚ) : Option ℤ :=
  match sortQ data with
  | [] => none
  | x :: rest => some ((rest.foldl modeStep
      { number := truncQ x, mode := truncQ x, count := 1,
        count_mode := 1 }).mode)

/-- Total version of `mode` used by the task graph. -/
def modeOf (data : List ℚ) : ℤ := (modeAccess data).getD 0

/-- `generate_gamma` (line 15): draws `sample_size` gamma variates with
parameters alpha and beta from the shared generator.  The distribution and
the mt19937 engine are modelled by the abstract variate function `draw`,
applied at consecutive positions of the generator's draw stream. -/
def genData (draw : Nat → ℚ → ℚ → ℚ) (pos n : Nat) (a b : ℚ) : List ℚ :=
  (List.range n).map (fun k => draw (pos + k) a b)

theorem truncQ_mono {a b : ℚ} (h : a ≤ b) : truncQ a ≤ truncQ b := by
  rw [truncQ, truncQ]
  by_cases ha : (0 : ℚ) ≤ a
  · rw [if_pos ha, if_pos (le_trans ha h)]
    exact Int.floor_le_floor h
  · rw [if_neg ha]
    by_cases hb : (0 : ℚ) ≤ b
    · rw [if_pos hb]
      calc ⌈a⌉ ≤ 0 := by
            rw [Int.ceil_le, Int.cast_zero]
            exact le_of_not_le ha
        _ ≤ ⌊b⌋ := Int.floor_nonneg.mpr hb
    · rw [if_neg hb]
      exact Int.ceil_le_ceil h

/-- In a sorted list every element is at most the last one. -/
theorem sorted_le_getLast (l : List ℚ)
    (hs : l.Pairwise (fun a b : ℚ => a ≤ b)) (h : l ≠ []) :
    ∀ y ∈ l, y ≤ l.getLast h := by
  induction l with
  | nil => exact absurd rfl h
  | cons a l ih =>
    intro y hy
    rcases List.mem_cons.mp hy with rfl | hyl
    · have hmem : (y :: l).getLast h ∈ y :: l := List.getLast_mem h
      rcases List.mem_cons.mp hmem with he | hmem2
      · exact le_of_eq he.symm
      · exact (List.pairwise_cons.mp hs).1 _ hmem2
    · have hlne : l ≠ [] := List.ne_nil_of_mem hyl
      rw [List.getLast_cons hlne]
      exact ih (List.pairwise_cons.mp hs).2 hlne y hyl

/-- Invariant of `mode`'s loop over the sorted tail: the best-so-far value is
always either strictly below the current run value or still the initial
value `t0`, and the current run value never exceeds the bound `B` (the
truncation of the last element). -/
theorem modeStep_fold_inv (t0 B : ℤ) :
    ∀ (rest : List ℚ) (s : ModeState),
      (∀ y ∈ rest, s.number ≤ truncQ y) →
      rest.Pairwise (fun a b : ℚ => a ≤ b) →
      (s.mode < s.number ∨ s.mode = t0) →
      s.number ≤ B →
      (∀ y ∈ rest, truncQ y ≤ B) →
      ((rest.foldl modeStep s).mode < (rest.foldl modeStep s).number
        ∨ (rest.foldl modeStep s).mode = t0)
      ∧ (rest.foldl modeStep s).number ≤ B := by
  intro rest
  induction rest with
  | nil =>
    intro s _ _ hm hb _
    exact ⟨hm, hb⟩
  | cons y rest ih =>
    intro s hlow hpw hm hb hub
    rw [List.foldl_cons]
    have hpw1 := (List.pairwise_cons.mp hpw).1
    have hpw2 := (List.pairwise_cons.mp hpw).2
    have hylow : s.number ≤ truncQ y := hlow y (List.mem_cons_self y rest)
    rw [modeStep]
    by_cases hceq : truncQ y = s.number
    · rw [if_pos hceq]
      apply ih
      · intro z hz
        simp only
        rw [← hceq]
        exact truncQ_mono (hpw1 z hz)
      · exact hpw2
      · exact hm
      · exact hb
      · intro z hz; exact hub z (List.mem_cons_of_mem y hz)
    · rw [if_neg hceq]
      have hylt : s.number < truncQ y := lt_of_le_of_ne hylow
        (fun he => hceq he.symm)
      apply ih
      · intro z hz
        simp only
        exact truncQ_mono (hpw1 z hz)
      · exact hpw2
      · by_cases hcnt : s.count > s.count_mode
        · rw [if_pos hcnt]
          exact Or.inl hylt
        · rw [if_neg hcnt]
          rcases hm with hlt | ht0
          · exact Or.inl (lt_trans hlt hylt)
          · exact Or.inr ht0
      · exact hub y (List.mem_cons_self y rest)
      · intro z hz; exact hub z (List.mem_cons_of_mem y hz)

/-- The value of the last (maximal) run of the sorted, truncated data is
never returned by `mode`, whenever it differs from the first element's
truncation: the loop commits a run only when a strictly larger value follows
it, so the final run is never committed. -/
theorem mode_skips_last_run (l : List ℚ) (x lst : ℚ) (rest : List ℚ)
    (hs : sortQ l = x :: rest)
    (hlast : (sortQ l).getLast? = some lst)
    (hdiff : truncQ x ≠ truncQ lst) :
    modeAccess l ≠ some (truncQ lst) := by
  have hsorted : (sortQ l).Pairwise (fun a b : ℚ => a ≤ b) :=
    List.sorted_insertionSort (fun a b : ℚ => a ≤ b) l
  have hne : sortQ l ≠ [] := by rw [hs]; exact List.cons_ne_nil x rest
  have hlst : (sortQ l).getLast hne = lst := by
    rw [List.getLast?_eq_getLast _ hne] at hlast
    exact Option.some.inj hlast
  have hle : ∀ y ∈ sortQ l, y ≤ lst := by
    intro y hy
    rw [← hlst]
    exact sorted_le_getLast (sortQ l) hsorted hne y hy
  have hxmem : x ∈ sortQ l := by rw [hs]; exact List.mem_cons_self x rest
  have hrestmem : ∀ y ∈ rest, y ∈ sortQ l := by
    intro y hy; rw [hs]; exact List.mem_cons_of_mem x hy
  have hpw : (x :: rest).Pairwise (fun a b : ℚ => a ≤ b) := hs ▸ hsorted
  have hinv := modeStep_fold_inv (truncQ x) (truncQ lst) rest
    { number := truncQ x, mode := truncQ x, count := 1, count_mode := 1 }
    (fun y hy => truncQ_mono ((List.pairwise_cons.mp hpw).1 y hy))
    (List.pairwise_cons.mp hpw).2
    (Or.inr rfl)
    (truncQ_mono (hle x hxmem))
    (fun y hy => truncQ_mono (hle y (hrestmem y hy)))
  rw [modeAccess, hs]
  intro hcontra
  have hmode := Option.some.inj hcontra
  rcases hinv.1 with hlt | ht0
  · rw [hmode] at hlt
    exact absurd (lt_of_lt_of_le hlt hinv.2) (lt_irrefl _)
  · rw [hmode] at ht0
    exact hdiff (ht0.symm)

/-!  The example graph of `build_graph` (lines 84-101), over the engine
model.  Node results are type-erased into `Value` (spec §9); the external
state read by the root tasks is `EnvEx`. -/

/-- Type-erased node result values of the example graph: the shared
generator handle (as its position in the draw stream), the sample size, a
double, the sampled data vector, the integer mode, and the aggregated
`result` record (lines 67-72). -/
inductive Value : Type
  | gen : Nat → Value
  | nat : Nat → Value
  | num : ℚ → Value
  | int : ℤ → Value
  | vec : List ℚ → Value
  | res : ℚ → ℚ → ℚ → ℤ → Value
deriving DecidableEq

/-- Modelled from the spec: §4.1/§5 — the external mutable state one pass
reads: the current values of `alpha` and `beta` (captured by reference by
the root tasks, lines 88-89) and the position of the shared mt19937 draw
stream (`gen`, line 85, seeded with the constant 1, advanced only by runs of
`generate_gamma`). -/
structure EnvEx : Type where
  alpha : ℚ
  beta : ℚ
  rngPos : Nat
deriving DecidableEq

/-- `[gen] { return gen; }` (line 86). -/
def computeRandGen : EnvEx → List Value → Except String Value :=
  fun env _ => Except.ok (Value.gen env.rngPos)

/-- `[sample_size] { return sample_size; }` (line 87): captures the
`build_graph` parameter by value. -/
def computeSampleSize (n : Nat) : EnvEx → List Value → Except String Value :=
  fun _ _ => Except.ok (Value.nat n)

/-- `[&alpha] { return alpha; }` (line 88): reads the current external
value each time it runs. -/
def computeAlpha : EnvEx → List Value → Except String Value :=
  fun env _ => Except.ok (Value.num env.alpha)

/-- `[&beta] { return beta; }` (line 89). -/
def computeBeta : EnvEx → List Value → Except String Value :=
  fun env _ => Except.ok (Value.num env.beta)

/-- `generate_gamma` as a task body (line 91): argument order
(sample size, alpha, beta, generator). -/
def computeGenGamma (draw : Nat → ℚ → ℚ → ℚ) :
    EnvEx → List Value → Except String Value :=
  fun _ args => match args with
    | [Value.nat sz, Value.num a, Value.num b, Value.gen pos] =>
        Except.ok (Value.vec (genData draw pos sz a b))
    | _ => Except.error "argument mismatch"

/-- `average` as a task body (line 94). -/
def computeAverage : EnvEx → List Value → Except String Value :=
  fun _ args => match args with
    | [Value.vec l] => Except.ok (Value.num (average l))
    | _ => Except.error "argument mismatch"

/-- `stddev` as a task body (line 95). -/
def computeStddev (sq : ℚ → ℚ) : EnvEx → List Value → Except String Value :=
  fun _ args => match args with
    | [Value.vec l, Value.num avg] =>
        Except.ok (Value.num (stddev sq l avg))
    | _ => Except.error "argument mismatch"

/-- `median` as a task body (line 96). -/
def computeMedian : EnvEx → List Value → Except String Value :=
  fun _ args => match args with
    | [Value.vec l] => Except.ok (Value.num (median l))
    | _ => Except.error "argument mismatch"

/-- `mode` as a task body (line 97). -/
def computeMode : EnvEx → List Value → Except String Value :=
  fun _ args => match args with
    | [Value.vec l] => Except.ok (Value.int (modeOf l))
    | _ => Except.error "argument mismatch"

/-- `aggregate_results` as a task body (line 99). -/
def computeAggregate : EnvEx → List Value → Except String Value :=
  fun _ args => match args with
    | [Value.num avg, Value.num sd, Value.num med, Value.int md] =>
        Except.ok (Value.res avg sd med md)
    | _ => Except.error "argument mismatch"

/-- Modelled from the spec: §4.1 — construction state threaded through the
combinator calls of `build_graph`: the nodes allocated so far, and a record
of computation invocations occurring during construction (the combinators
never produce any: spec §4.1 "construction never executes compute"). -/
structure BuildState : Type where
  nodes : List (WNode Value String EnvEx)
  execLog : List Nat

/-- Modelled from the spec: §4.1 — `tw::make_task`: allocates a new node
with the given label, dependency edges and computation, returning its id.
Its only effect is appending the node; it records no invocation. -/
def mkTask (b : BuildState) (label : String)
    (deps : List (Nat × BindMode))
    (f : EnvEx → List Value → Except String Value) :
    BuildState × Nat :=
  ({ nodes := b.nodes ++ [{ label := label, deps := deps, compute := f }]
    , execLog := b.execLog }, b.nodes.length)

/-- `build_graph` (lines 84-101) as the chain of `make_task` calls,
returning the final build state and the final task's id. -/
def build_graph (n : Nat) (draw : Nat → ℚ → ℚ → ℚ) (sq : ℚ → ℚ) :
    BuildState × Nat :=
  let b0 : BuildState := { nodes := [], execLog := [] }
  let g0 := mkTask b0 "rand gen" [] computeRandGen
  let g1 := mkTask g0.1 "sample size" [] (computeSampleSize n)
  let g2 := mkTask g1.1 "alpha" [] computeAlpha
  let g3 := mkTask g2.1 "beta" [] computeBeta
  let g4 := mkTask g3.1 "generate gamma"
    [(g1.2, BindMode.consume), (g2.2, BindMode.consume),
     (g3.2, BindMode.consume), (g0.2, BindMode.consume)]
    (computeGenGamma draw)
  let g5 := mkTask g4.1 "average" [(g4.2, BindMode.consume)] computeAverage
  let g6 := mkTask g5.1 "stddev"
    [(g4.2, BindMode.consume), (g5.2, BindMode.consume)] (computeStddev sq)
  let g7 := mkTask g6.1 "median" [(g4.2, BindMode.consume)] computeMedian
  let g8 := mkTask g7.1 "mode" [(g4.2, BindMode.consume)] computeMode
  mkTask g8.1 "aggregate results"
    [(g5.2, BindMode.consume), (g6.2, BindMode.consume),
     (g7.2, BindMode.consume), (g8.2, BindMode.consume)]
    computeAggregate

/-- The dependency edges `build_graph` records, node by node. -/
def exampleDeps : List (List (Nat × BindMode)) :=
  [[], [], [], [],
   [(1, BindMode.consume), (2, BindMode.consume),
    (3, BindMode.consume), (0, BindMode.consume)],
   [(4, BindMode.consume)],
   [(4, BindMode.consume), (5, BindMode.consume)],
   [(4, BindMode.consume)],
   [(4, BindMode.consume)],
   [(5, BindMode.consume), (6, BindMode.consume),
    (7, BindMode.consume), (8, BindMode.consume)]]

theorem exampleDeps_wf : ∀ i, (h : i < exampleDeps.length) →
    ∀ d ∈ exampleDeps.get ⟨i, h⟩, d.1 < i := by decide

/-- The example graph: the nodes `build_graph` allocates.  Well-formedness
(dependencies precede dependents) holds by construction. -/
def exampleGraph (n : Nat) (draw : Nat → ℚ → ℚ → ℚ) (sq : ℚ → ℚ) :
    WGraph Value String EnvEx :=
  { nodes := (build_graph n draw sq).1.nodes
    wf := by
      intro i h d hd
      have h10 : i < 10 := h
      interval_cases i
      all_goals exact exampleDeps_wf _ (by decide) d hd }

theorem exampleGraph_len (n : Nat) (draw : Nat → ℚ → ℚ → ℚ) (sq : ℚ → ℚ) :
    (exampleGraph n draw sq).nodes.length = 10 := rfl

/-!  The value each node of the example graph resolves to in a pass with
environment `env`, by the order-free denotation. -/

theorem evalEx_0 (n : Nat) (draw : Nat → ℚ → ℚ → ℚ) (sq : ℚ → ℚ)
    (env : EnvEx) :
    evalCell (exampleGraph n draw sq) env 0
      = Cell.ready (Value.gen env.rngPos) := by
  have h : (0 : Nat) < (exampleGraph n draw sq).nodes.length := by
    rw [exampleGraph_len]; omega
  rw [evalCell_lt _ env 0 h]
  rfl

theorem evalEx_1 (n : Nat) (draw : Nat → ℚ → ℚ → ℚ) (sq : ℚ → ℚ)
    (env : EnvEx) :
    evalCell (exampleGraph n draw sq) env 1
      = Cell.ready (Value.nat n) := by
  have h : (1 : Nat) < (exampleGraph n draw sq).nodes.length := by
    rw [exampleGraph_len]; omega
  rw [evalCell_lt _ env 1 h]
  rfl

theorem evalEx_2 (n : Nat) (draw : Nat → ℚ → ℚ → ℚ) (sq : ℚ → ℚ)
    (env : EnvEx) :
    evalCell (exampleGraph n draw sq) env 2
      = Cell.ready (Value.num env.alpha) := by
  have h : (2 : Nat) < (exampleGraph n draw sq).nodes.length := by
    rw [exampleGraph_len]; omega
  rw [evalCell_lt _ env 2 h]
  rfl

theorem evalEx_3 (n : Nat) (draw : Nat → ℚ → ℚ → ℚ) (sq : ℚ → ℚ)
    (env : EnvEx) :
    evalCell (exampleGraph n draw sq) env 3
      = Cell.ready (Value.num env.beta) := by
  have h : (3 : Nat) < (exampleGraph n draw sq).nodes.length := by
    rw [exampleGraph_len]; omega
  rw [evalCell_lt _ env 3 h]
  rfl

/-- The data vector `generate_gamma` produces in a pass with environment
`env`. -/
def exampleData (n : Nat) (draw : Nat → ℚ → ℚ → ℚ) (env : EnvEx) : List ℚ :=
  genData draw env.rngPos n env.alpha env.beta

theorem evalEx_4 (n : Nat) (draw : Nat → ℚ → ℚ → ℚ) (sq : ℚ → ℚ)
    (env : EnvEx) :
    evalCell (exampleGraph n draw sq) env 4
      = Cell.ready (Value.vec (exampleData n draw env)) := by
  have h : (4 : Nat) < (exampleGraph n draw sq).nodes.length := by
    rw [exampleGraph_len]; omega
  rw [evalCell_lt _ env 4 h]
  have hnd : (exampleGraph n draw sq).nodes.get ⟨4, h⟩
      = { label := "generate gamma"
        , deps := [(1, BindMode.consume), (2, BindMode.consume),
                   (3, BindMode.consume), (0, BindMode.consume)]
        , compute := computeGenGamma draw } := rfl
  rw [hnd]
  simp only [stepCell, depCells, depsAllReady, consumeArgs, List.map_cons,
    List.map_nil]
  rw [evalEx_0 n draw sq env, evalEx_1 n draw sq env, evalEx_2 n draw sq env,
    evalEx_3 n draw sq env]
  rfl

theorem evalEx_5 (n : Nat) (draw : Nat → ℚ → ℚ → ℚ) (sq : ℚ → ℚ)
    (env : EnvEx) :
    evalCell (exampleGraph n draw sq) env 5
      = Cell.ready (Value.num (average (exampleData n draw env))) := by
  have h : (5 : Nat) < (exampleGraph n draw sq).nodes.length := by
    rw [exampleGraph_len]; omega
  rw [evalCell_lt _ env 5 h]
  have hnd : (exampleGraph n draw sq).nodes.get ⟨5, h⟩
      = { label := "average", deps := [(4, BindMode.consume)]
        , compute := computeAverage } := rfl
  rw [hnd]
  simp only [stepCell, depCells, depsAllReady, consumeArgs, List.map_cons,
    List.map_nil]
  rw [evalEx_4 n draw sq env]
  rfl

theorem evalEx_6 (n : Nat) (draw : Nat → ℚ → ℚ → ℚ) (sq : ℚ → ℚ)
    (env : EnvEx) :
    evalCell (exampleGraph n draw sq) env 6
      = Cell.ready (Value.num (stddev sq (exampleData n draw env)
          (average (exampleData n draw env)))) := by
  have h : (6 : Nat) < (exampleGraph n draw sq).nodes.length := by
    rw [exampleGraph_len]; omega
  rw [evalCell_lt _ env 6 h]
  have hnd : (exampleGraph n draw sq).nodes.get ⟨6, h⟩
      = { label := "stddev"
        , deps := [(4, BindMode.consume), (5, BindMode.consume)]
        , compute := computeStddev sq } := rfl
  rw [hnd]
  simp only [stepCell, depCells, depsAllReady, consumeArgs, List.map_cons,
    List.map_nil]
  rw [evalEx_4 n draw sq env, evalEx_5 n draw sq env]
  rfl

theorem evalEx_7 (n : Nat) (draw : Nat → ℚ → ℚ → ℚ) (sq : ℚ → ℚ)
    (env : EnvEx) :
    evalCell (exampleGraph n draw sq) env 7
      = Cell.ready (Value.num (median (exampleData n draw env))) := by
  have h : (7 : Nat) < (exampleGraph n draw sq).nodes.length := by
    rw [exampleGraph_len]; omega
  rw [evalCell_lt _ env 7 h]
  have hnd : (exampleGraph n draw sq).nodes.get ⟨7, h⟩
      = { label := "median", deps := [(4, BindMode.consume)]
        , compute := computeMedian } := rfl
  rw [hnd]
  simp only [stepCell, depCells, depsAllReady, consumeArgs, List.map_cons,
    List.map_nil]
  rw [evalEx_4 n draw sq env]
  rfl

theorem evalEx_8 (n : Nat) (draw : Nat → ℚ → ℚ → ℚ) (sq : ℚ → ℚ)
    (env : EnvEx) :
    evalCell (exampleGraph n draw sq) env 8
      = Cell.ready (Value.int (modeOf (exampleData n draw env))) := by
  have h : (8 : Nat) < (exampleGraph n draw sq).nodes.length := by
    rw [exampleGraph_len]; omega
  rw [evalCell_lt _ env 8 h]
  have hnd : (exampleGraph n draw sq).nodes.get ⟨8, h⟩
      = { label := "mode", deps := [(4, BindMode.consume)]
        , compute := computeMode } := rfl
  rw [hnd]
  simp only [stepCell, depCells, depsAllReady, consumeArgs, List.map_cons,
    List.map_nil]
  rw [evalEx_4 n draw sq env]
  rfl

/-- The aggregated `result` record of one pass with environment `env`. -/
def exampleResult (n : Nat) (draw : Nat → ℚ → ℚ → ℚ) (sq : ℚ → ℚ)
    (env : EnvEx) : Value :=
  Value.res (average (exampleData n draw env))
    (stddev sq (exampleData n draw env) (average (exampleData n draw env)))
    (median (exampleData n draw env))
    (modeOf (exampleData n draw env))

theorem evalEx_9 (n : Nat) (draw : Nat → ℚ → ℚ → ℚ) (sq : ℚ → ℚ)
    (env : EnvEx) :
    evalCell (exampleGraph n draw sq) env 9
      = Cell.ready (exampleResult n draw sq env) := by
  have h : (9 : Nat) < (exampleGraph n draw sq).nodes.length := by
    rw [exampleGraph_len]; omega
  rw [evalCell_lt _ env 9 h]
  have hnd : (exampleGraph n draw sq).nodes.get ⟨9, h⟩
      = { label := "aggregate results"
        , deps := [(5, BindMode.consume), (6, BindMode.consume),
                   (7, BindMode.consume), (8, BindMode.consume)]
        , compute := computeAggregate } := rfl
  rw [hnd]
  simp only [stepCell, depCells, depsAllReady, consumeArgs, List.map_cons,
    List.map_nil]
  rw [evalEx_5 n draw sq env, evalEx_6 n draw sq env, evalEx_7 n draw sq env,
    evalEx_8 n draw sq env]
  rfl

instance validOrderDecidable (g : WGraph V E Env) (order : List Nat) :
    Decidable (ValidOrder g order) := by
  unfold ValidOrder
  infer_instance

/-!  The driver loop of `statistical_key_facts` (lines 110-141): three
passes (`count` runs over 1, 2, 3), with `alpha += count; beta += count`
between passes, and the shared generator advanced by the `sample_size` draws
of the single per-pass run of `generate_gamma`. -/

/-- The pass-1 environment: `alpha = 1`, `beta = 1` (lines 113-114), fresh
generator (line 85). -/
def statEnv1 : EnvEx := { alpha := 1, beta := 1, rngPos := 0 }

/-- The environment after one pass with loop counter `count`
(lines 138-140), the generator having advanced by the pass's `n` draws. -/
def nextEnv (n : Nat) (e : EnvEx) (count : ℚ) : EnvEx :=
  { alpha := e.alpha + count, beta := e.beta + count
  , rngPos := e.rngPos + n }

def statEnv2 (n : Nat) : EnvEx := nextEnv n statEnv1 1

def statEnv3 (n : Nat) : EnvEx := nextEnv n (statEnv2 n) 2

/-- The three "schedule all" passes of `statistical_key_facts`, each under
its own dispatch order (the executor's choice). -/
def statPasses (n : Nat) (draw : Nat → ℚ → ℚ → ℚ) (sq : ℚ → ℚ)
    (o1 o2 o3 : List Nat) : List (PassState Value String) :=
  [runPass (exampleGraph n draw sq) statEnv1 o1,
   runPass (exampleGraph n draw sq) (statEnv2 n) o2,
   runPass (exampleGraph n draw sq) (statEnv3 n) o3]

/-- The sequence of final-task results the three passes write to `os`
(line 135-136: `final_task->get_future().get()`). -/
def statResults (n : Nat) (draw : Nat → ℚ → ℚ → ℚ) (sq : ℚ → ℚ)
    (o1 o2 o3 : List Nat) : List (Cell Value (TwError String)) :=
  (statPasses n draw sq o1 o2 o3).map (fun s => s.cells 9)

/-!  The invocation entries of the example graph's nodes, for a pass with
environment `env`. -/

theorem invokeEntryEx_2 (n : Nat) (draw : Nat → ℚ → ℚ → ℚ) (sq : ℚ → ℚ)
    (env : EnvEx) :
    invokeEntry (exampleGraph n draw sq) env 2 = some (2, []) := by
  have hget : (exampleGraph n draw sq).nodes.get? 2
      = some { label := "alpha", deps := [], compute := computeAlpha } := rfl
  rw [invokeEntry]
  simp only [hget]
  rfl

theorem invokeEntryEx_4 (n : Nat) (draw : Nat → ℚ → ℚ → ℚ) (sq : ℚ → ℚ)
    (env : EnvEx) :
    invokeEntry (exampleGraph n draw sq) env 4
      = some (4, [Value.nat n, Value.num env.alpha, Value.num env.beta,
          Value.gen env.rngPos]) := by
  have hget : (exampleGraph n draw sq).nodes.get? 4
      = some (WNode.mk "generate gamma"
          [(1, BindMode.consume), (2, BindMode.consume),
            (3, BindMode.consume), (0, BindMode.consume)]
          (computeGenGamma draw)) := rfl
  rw [invokeEntry]
  simp only [hget, depsAllReady, consumeArgs, depCells, List.map_cons,
    List.map_nil]
  rw [evalEx_0 n draw sq env, evalEx_1 n draw sq env, evalEx_2 n draw sq env,
    evalEx_3 n draw sq env]
  rfl

theorem invokeEntryEx_5 (n : Nat) (draw : Nat → ℚ → ℚ → ℚ) (sq : ℚ → ℚ)
    (env : EnvEx) :
    invokeEntry (exampleGraph n draw sq) env 5
      = some (5, [Value.vec (exampleData n draw env)]) := by
  have hget : (exampleGraph n draw sq).nodes.get? 5
      = some (WNode.mk "average" [(4, BindMode.consume)]
          computeAverage) := rfl
  rw [invokeEntry]
  simp only [hget, depsAllReady, consumeArgs, depCells, List.map_cons,
    List.map_nil]
  rw [evalEx_4 n draw sq env]
  rfl

theorem invokeEntryEx_6 (n : Nat) (draw : Nat → ℚ → ℚ → ℚ) (sq : ℚ → ℚ)
    (env : EnvEx) :
    invokeEntry (exampleGraph n draw sq) env 6
      = some (6, [Value.vec (exampleData n draw env),
          Value.num (average (exampleData n draw env))]) := by
  have hget : (exampleGraph n draw sq).nodes.get? 6
      = some (WNode.mk "stddev"
          [(4, BindMode.consume), (5, BindMode.consume)]
          (computeStddev sq)) := rfl
  rw [invokeEntry]
  simp only [hget, depsAllReady, consumeArgs, depCells, List.map_cons,
    List.map_nil]
  rw [evalEx_4 n draw sq env, evalEx_5 n draw sq env]
  rfl

theorem invokeEntryEx_7 (n : Nat) (draw : Nat → ℚ → ℚ → ℚ) (sq : ℚ → ℚ)
    (env : EnvEx) :
    invokeEntry (exampleGraph n draw sq) env 7
      = some (7, [Value.vec (exampleData n draw env)]) := by
  have hget : (exampleGraph n draw sq).nodes.get? 7
      = some (WNode.mk "median" [(4, BindMode.consume)]
          computeMedian) := rfl
  rw [invokeEntry]
  simp only [hget, depsAllReady, consumeArgs, depCells, List.map_cons,
    List.map_nil]
  rw [evalEx_4 n draw sq env]
  rfl

theorem invokeEntryEx_8 (n : Nat) (draw : Nat → ℚ → ℚ → ℚ) (sq : ℚ → ℚ)
    (env : EnvEx) :
    invokeEntry (exampleGraph n draw sq) env 8
      = some (8, [Value.vec (exampleData n draw env)]) := by
  have hget : (exampleGraph n draw sq).nodes.get? 8
      = some (WNode.mk "mode" [(4, BindMode.consume)]
          computeMode) := rfl
  rw [invokeEntry]
  simp only [hget, depsAllReady, consumeArgs, depCells, List.map_cons,
    List.map_nil]
  rw [evalEx_4 n draw sq env]
  rfl

theorem Desc.lt_length {g : WGraph V E Env} {a b : Nat} (h : Desc g a b) :
    b < g.nodes.length := by
  have hdep : ∃ d, d ∈ depsOf g b := by
    cases h with
    | single d hd he => exact ⟨d, hd⟩
    | tail hab d hd he => exact ⟨d, hd⟩
  obtain ⟨d, hd⟩ := hdep
  by_contra hb
  rw [depsOf, List.get?_eq_none.mpr (Nat.le_of_not_lt hb)] at hd
  exact absurd hd (List.not_mem_nil d)

/-- Extracting the invoked arguments: they are always the
consume-dependency values under the order-free denotation. -/
theorem invokeEntry_args (g : WGraph V E Env) (env : Env) (i : Nat)
    (args : List V) (h : invokeEntry g env i = some (i, args)) :
    ∃ hi : i < g.nodes.length,
      args = consumeArgs (g.nodes.get ⟨i, hi⟩) (evalCell g env) := by
  rw [invokeEntry] at h
  cases hga : g.nodes.get? i with
  | none => rw [hga] at h; exact absurd h (by simp)
  | some nd =>
    simp only [hga] at h
    by_cases hr : depsAllReady nd (evalCell g env)
    · rw [if_pos hr] at h
      have hi : i < g.nodes.length := by
        by_contra hni
        rw [List.get?_eq_none.mpr (Nat.le_of_not_lt hni)] at hga
        exact absurd hga (by simp)
      refine ⟨hi, ?_⟩
      have hnd : g.nodes.get ⟨i, hi⟩ = nd := by
        have := List.get?_eq_get hi (l := g.nodes)
        rw [hga] at this
        exact (Option.some.inj this).symm
      rw [hnd]
      exact ((Prod.mk.injEq _ _ _ _).mp (Option.some.inj h)).2.symm
    · rw [if_neg hr] at h
      exact absurd h (by simp)

/-!  Concrete instances used by the witnesses. -/

/-- A concrete variate function: every draw is 0. -/
def drawZero : Nat → ℚ → ℚ → ℚ := fun _ _ _ => 0

/-- A concrete square-root stand-in. -/
def sqId : ℚ → ℚ := id

/-- The construction-order dispatch (the sequential executor's order). -/
def ordA : List Nat := [0, 1, 2, 3, 4, 5, 6, 7, 8, 9]

/-- Another dependency-respecting dispatch order (a parallel schedule). -/
def ordB : List Nat := [3, 2, 1, 0, 4, 5, 7, 8, 6, 9]

/-- C1: for every Graph and every "schedule all" pass — any
dependency-respecting dispatch order an Executor can produce — a Node's
compute is never invoked before every dependency it consumes or waits on has
left `pending`; on the example graph, whenever the `stddev` Node (id 6) is
invoked in a pass it receives exactly the data vector of `generate gamma`
(id 4) and the value `average` (id 5) produced in that pass, both of whose
cells resolved `ready`. -/
theorem spec_c1_topological_soundness :
    (∀ (V E Env : Type) (g : WGraph V E Env) (env : Env) (order : List Nat),
      ValidOrder g order → ∀ k, (hk : k < order.length) →
        ∀ d ∈ depsOf g (order.get ⟨k, hk⟩),
          (runPass g env (order.take k)).cells d.1 ≠ Cell.pending)
    ∧ (∀ (n : Nat) (draw : Nat → ℚ → ℚ → ℚ) (sq : ℚ → ℚ) (env : EnvEx)
        (order : List Nat), ValidOrder (exampleGraph n draw sq) order →
        ∀ args,
          (6, args) ∈ (runPass (exampleGraph n draw sq) env order).invoked →
          args = [Value.vec (exampleData n draw env),
            Value.num (average (exampleData n draw env))]
          ∧ (runPass (exampleGraph n draw sq) env order).cells 4
              = Cell.ready (Value.vec (exampleData n draw env))
          ∧ (runPass (exampleGraph n draw sq) env order).cells 5
              = Cell.ready (Value.num (average (exampleData n draw env)))) := by
  constructor
  · intro V E Env g env order hv k hk d hd
    have hdkmem : d.1 ∈ order.take k := hv.2.2.2 k hk d hd
    have hdord : d.1 ∈ order := List.take_subset k order hdkmem
    have hdlt : d.1 < g.nodes.length := hv.2.2.1 d.1 hdord
    have hinv := (runPass_take_invariant g env order hv k (Nat.le_of_lt hk)).1
    rw [hinv d.1 hdkmem]
    exact evalCell_ne_pending g env d.1 hdlt
  · intro n draw sq env order hv args hmem
    have h6 := (runPass_invoked_mem _ env order hv 6 args).mp hmem
    have hargs : args = [Value.vec (exampleData n draw env),
        Value.num (average (exampleData n draw env))] := by
      have heq := h6.2
      rw [invokeEntryEx_6 n draw sq env] at heq
      exact (((Prod.mk.injEq _ _ _ _).mp (Option.some.inj heq)).2).symm
    have h4lt : (4 : Nat) < (exampleGraph n draw sq).nodes.length := by
      rw [exampleGraph_len]; omega
    have h5lt : (5 : Nat) < (exampleGraph n draw sq).nodes.length := by
      rw [exampleGraph_len]; omega
    refine ⟨hargs, ?_, ?_⟩
    · rw [runPass_cells_eq _ env order hv 4 h4lt]
      exact evalEx_4 n draw sq env
    · rw [runPass_cells_eq _ env order hv 5 h5lt]
      exact evalEx_5 n draw sq env

theorem spec_c1_witness :
    (runPass (exampleGraph 1 drawZero sqId) statEnv1 (ordA.take 6)).cells 4
      ≠ Cell.pending
    ∧ (runPass (exampleGraph 1 drawZero sqId) statEnv1 ordA).cells 5
        = Cell.ready (Value.num (average (exampleData 1 drawZero statEnv1))) := by
  constructor
  · exact spec_c1_topological_soundness.1 Value String EnvEx
      (exampleGraph 1 drawZero sqId) statEnv1 ordA (by decide) 6 (by decide)
      (4, BindMode.consume) (by decide)
  · have hmem : (6, [Value.vec (exampleData 1 drawZero statEnv1),
        Value.num (average (exampleData 1 drawZero statEnv1))])
        ∈ (runPass (exampleGraph 1 drawZero sqId) statEnv1 ordA).invoked :=
      (runPass_invoked_mem _ statEnv1 ordA (by decide) 6 _).mpr
        ⟨by decide, invokeEntryEx_6 1 drawZero sqId statEnv1⟩
    exact (spec_c1_topological_soundness.2 1 drawZero sqId statEnv1 ordA
      (by decide) _ hmem).2.2

/-- C2: for a Graph with deterministic compute bodies the final Node's
result is the same under any two valid dispatch orders — in particular under
the sequential executor's order and any parallel schedule; instantiated on
the example, the sequence of the three per-pass results
`statistical_key_facts` writes is identical for any two choices of per-pass
dispatch orders (the generator advances deterministically between passes
because `generate gamma` runs exactly once per pass). -/
theorem spec_c2_executor_equivalence :
    (∀ (V E Env : Type) (g : WGraph V E Env) (env : Env) (o o' : List Nat),
      ValidOrder g o → ValidOrder g o' → ∀ i, i < g.nodes.length →
        (runPass g env o).cells i = (runPass g env o').cells i)
    ∧ (∀ (n : Nat) (draw : Nat → ℚ → ℚ → ℚ) (sq : ℚ → ℚ)
        (o1 o2 o3 p1 p2 p3 : List Nat),
        ValidOrder (exampleGraph n draw sq) o1 →
        ValidOrder (exampleGraph n draw sq) o2 →
        ValidOrder (exampleGraph n draw sq) o3 →
        ValidOrder (exampleGraph n draw sq) p1 →
        ValidOrder (exampleGraph n draw sq) p2 →
        ValidOrder (exampleGraph n draw sq) p3 →
        statResults n draw sq o1 o2 o3 = statResults n draw sq p1 p2 p3) := by
  constructor
  · intro V E Env g env o o₂ hv hv₂ i hi
    rw [runPass_cells_eq g env o hv i hi, runPass_cells_eq g env o₂ hv₂ i hi]
  · intro n draw sq o1 o2 o3 p1 p2 p3 h1 h2 h3 h4 h5 h6
    have h9 : (9 : Nat) < (exampleGraph n draw sq).nodes.length := by
      rw [exampleGraph_len]; omega
    rw [statResults, statResults, statPasses, statPasses]
    simp only [List.map_cons, List.map_nil]
    rw [runPass_cells_eq _ _ _ h1 9 h9, runPass_cells_eq _ _ _ h2 9 h9,
      runPass_cells_eq _ _ _ h3 9 h9, runPass_cells_eq _ _ _ h4 9 h9,
      runPass_cells_eq _ _ _ h5 9 h9, runPass_cells_eq _ _ _ h6 9 h9]

theorem spec_c2_witness :
    statResults 1 drawZero sqId ordA ordA ordA
      = statResults 1 drawZero sqId ordB ordB ordB :=
  spec_c2_executor_equivalence.2 1 drawZero sqId ordA ordA ordA ordB ordB ordB
    (by decide) (by decide) (by decide) (by decide) (by decide) (by decide)

/-- C3: a root Node's compute is re-invoked fresh on every pass and reads
the current value of the external location it closes over: across the three
passes of `statistical_key_facts` the `alpha` root (id 2) resolves 1, then
2, then 4 (alpha is incremented by the loop counter between passes), the
root is invoked in every pass, and the per-pass aggregated result is the one
computed from that pass's environment — no stale caching. -/
theorem spec_c3_root_freshness :
    ∀ (n : Nat) (draw : Nat → ℚ → ℚ → ℚ) (sq : ℚ → ℚ) (o1 o2 o3 : List Nat),
      ValidOrder (exampleGraph n draw sq) o1 →
      ValidOrder (exampleGraph n draw sq) o2 →
      ValidOrder (exampleGraph n draw sq) o3 →
      ((statPasses n draw sq o1 o2 o3).map (fun s => s.cells 2)
        = [Cell.ready (Value.num 1), Cell.ready (Value.num 2),
           Cell.ready (Value.num 4)])
      ∧ (∀ s ∈ statPasses n draw sq o1 o2 o3, (2, ([] : List Value)) ∈ s.invoked)
      ∧ statResults n draw sq o1 o2 o3
          = [Cell.ready (exampleResult n draw sq statEnv1),
             Cell.ready (exampleResult n draw sq (statEnv2 n)),
             Cell.ready (exampleResult n draw sq (statEnv3 n))]
      ∧ statEnv1.alpha = 1 ∧ (statEnv2 n).alpha = 2
      ∧ (statEnv3 n).alpha = 4 := by
  intro n draw sq o1 o2 o3 h1 h2 h3
  have h2lt : (2 : Nat) < (exampleGraph n draw sq).nodes.length := by
    rw [exampleGraph_len]; omega
  have h9lt : (9 : Nat) < (exampleGraph n draw sq).nodes.length := by
    rw [exampleGraph_len]; omega
  have ha1 : statEnv1.alpha = 1 := rfl
  have ha2 : (statEnv2 n).alpha = 2 := by
    show statEnv1.alpha + 1 = 2
    rw [ha1]; norm_num
  have ha3 : (statEnv3 n).alpha = 4 := by
    show (statEnv2 n).alpha + 2 = 4
    rw [ha2]; norm_num
  refine ⟨?_, ?_, ?_, ha1, ha2, ha3⟩
  · rw [statPasses]
    simp only [List.map_cons, List.map_nil]
    rw [runPass_cells_eq _ _ _ h1 2 h2lt, runPass_cells_eq _ _ _ h2 2 h2lt,
      runPass_cells_eq _ _ _ h3 2 h2lt, evalEx_2, evalEx_2, evalEx_2,
      ha1, ha2, ha3]
  · intro s hs
    rw [statPasses] at hs
    have hin : ∀ (env : EnvEx) (o : List Nat),
        ValidOrder (exampleGraph n draw sq) o →
        (2, ([] : List Value)) ∈ (runPass (exampleGraph n draw sq) env o).invoked := by
      intro env o hv
      exact (runPass_invoked_mem _ env o hv 2 []).mpr
        ⟨hv.2.1 2 h2lt, invokeEntryEx_2 n draw sq env⟩
    rcases List.mem_cons.mp hs with rfl | hs
    · exact hin statEnv1 o1 h1
    rcases List.mem_cons.mp hs with rfl | hs
    · exact hin (statEnv2 n) o2 h2
    rcases List.mem_cons.mp hs with rfl | hs
    · exact hin (statEnv3 n) o3 h3
    · exact absurd hs (List.not_mem_nil s)
  · rw [statResults, statPasses]
    simp only [List.map_cons, List.map_nil]
    rw [runPass_cells_eq _ _ _ h1 9 h9lt, runPass_cells_eq _ _ _ h2 9 h9lt,
      runPass_cells_eq _ _ _ h3 9 h9lt, evalEx_9, evalEx_9, evalEx_9]

theorem spec_c3_witness :
    ((statPasses 1 drawZero sqId ordA ordA ordA).map (fun s => s.cells 2)
      = [Cell.ready (Value.num 1), Cell.ready (Value.num 2),
         Cell.ready (Value.num 4)])
    ∧ (statEnv3 1).alpha = 4 := by
  have h := spec_c3_root_freshness 1 drawZero sqId ordA ordA ordA
    (by decide) (by decide) (by decide)
  exact ⟨h.1, h.2.2.2.2.2⟩

/-- C4: within one pass every Node consuming the same dependency observes
the identical value of that dependency's single execution: in general the
arguments any invocation receives are exactly the consume-dependency values
of the pass's (single-valued) denotation; on the example, `average`,
`stddev`, `median` and `mode` all receive the one data vector `generate
gamma` produced in that pass, and every reader of a Node's future sees that
same final cell. -/
theorem spec_c4_fanout_stability :
    (∀ (V E Env : Type) (g : WGraph V E Env) (env : Env) (order : List Nat),
      ValidOrder g order →
      ∀ i args, (i, args) ∈ (runPass g env order).invoked →
        ∃ hi : i < g.nodes.length,
          args = consumeArgs (g.nodes.get ⟨i, hi⟩) (evalCell g env))
    ∧ (∀ (n : Nat) (draw : Nat → ℚ → ℚ → ℚ) (sq : ℚ → ℚ) (env : EnvEx)
        (order : List Nat), ValidOrder (exampleGraph n draw sq) order →
        ((runPass (exampleGraph n draw sq) env order).cells 4
          = Cell.ready (Value.vec (exampleData n draw env)))
        ∧ (∀ args,
            (5, args) ∈ (runPass (exampleGraph n draw sq) env order).invoked →
            args = [Value.vec (exampleData n draw env)])
        ∧ (∀ args,
            (6, args) ∈ (runPass (exampleGraph n draw sq) env order).invoked →
            args = [Value.vec (exampleData n draw env),
              Value.num (average (exampleData n draw env))])
        ∧ (∀ args,
            (7, args) ∈ (runPass (exampleGraph n draw sq) env order).invoked →
            args = [Value.vec (exampleData n draw env)])
        ∧ (∀ args,
            (8, args) ∈ (runPass (exampleGraph n draw sq) env order).invoked →
            args = [Value.vec (exampleData n draw env)])) := by
  constructor
  · intro V E Env g env order hv i args hmem
    exact invokeEntry_args g env i args
      ((runPass_invoked_mem g env order hv i args).mp hmem).2
  · intro n draw sq env order hv
    have h4lt : (4 : Nat) < (exampleGraph n draw sq).nodes.length := by
      rw [exampleGraph_len]; omega
    have harg : ∀ i args entry,
        invokeEntry (exampleGraph n draw sq) env i = some (i, entry) →
        (i, args) ∈ (runPass (exampleGraph n draw sq) env order).invoked →
        args = entry := by
      intro i args entry hentry hmem
      have h := ((runPass_invoked_mem _ env order hv i args).mp hmem).2
      rw [hentry] at h
      exact (((Prod.mk.injEq _ _ _ _).mp (Option.some.inj h)).2).symm
    refine ⟨?_, ?_, ?_, ?_, ?_⟩
    · rw [runPass_cells_eq _ env order hv 4 h4lt]
      exact evalEx_4 n draw sq env
    · intro args hmem
      exact harg 5 args _ (invokeEntryEx_5 n draw sq env) hmem
    · intro args hmem
      exact harg 6 args _ (invokeEntryEx_6 n draw sq env) hmem
    · intro args hmem
      exact harg 7 args _ (invokeEntryEx_7 n draw sq env) hmem
    · intro args hmem
      exact harg 8 args _ (invokeEntryEx_8 n draw sq env) hmem

theorem spec_c4_witness :
    ((runPass (exampleGraph 1 drawZero sqId) statEnv1 ordB).cells 4
      = Cell.ready (Value.vec (exampleData 1 drawZero statEnv1)))
    ∧ [Value.vec (exampleData 1 drawZero statEnv1)]
        = [Value.vec (exampleData 1 drawZero statEnv1)] := by
  have hmem : (7, [Value.vec (exampleData 1 drawZero statEnv1)])
      ∈ (runPass (exampleGraph 1 drawZero sqId) statEnv1 ordB).invoked :=
    (runPass_invoked_mem _ statEnv1 ordB (by decide) 7 _).mpr
      ⟨by decide, invokeEntryEx_7 1 drawZero sqId statEnv1⟩
  have h := spec_c4_fanout_stability.2 1 drawZero sqId statEnv1 ordB (by decide)
  exact ⟨h.1, by rw [h.2.2.2.1 _ hmem]⟩

/-- C5: for every Graph, every Executor and every pass, each reachable
Node's compute runs at most once per "schedule all" call; on the example,
`generate gamma` (id 4) runs exactly once per pass even though four Nodes
consume it, its data vector has exactly `sample_size` entries, and the
shared generator's position advances by exactly `sample_size` draws from one
pass to the next. -/
theorem spec_c5_at_most_once :
    (∀ (V E Env : Type) (g : WGraph V E Env) (env : Env) (order : List Nat),
      ValidOrder g order →
      ∀ i, ((runPass g env order).invoked.map Prod.fst).count i ≤ 1)
    ∧ (∀ (n : Nat) (draw : Nat → ℚ → ℚ → ℚ) (sq : ℚ → ℚ) (env : EnvEx)
        (order : List Nat), ValidOrder (exampleGraph n draw sq) order →
        ((runPass (exampleGraph n draw sq) env order).invoked.map
          Prod.fst).count 4 = 1)
    ∧ (∀ (n : Nat) (draw : Nat → ℚ → ℚ → ℚ) (env : EnvEx),
        (exampleData n draw env).length = n)
    ∧ (∀ n : Nat, (statEnv2 n).rngPos = statEnv1.rngPos + n
        ∧ (statEnv3 n).rngPos = (statEnv2 n).rngPos + n) := by
  refine ⟨?_, ?_, ?_, ?_⟩
  · intro V E Env g env order hv i
    exact List.nodup_iff_count_le_one.mp (runPass_invoked_nodup g env order hv) i
  · intro n draw sq env order hv
    rw [runPass_invoked_ids _ env order hv]
    have hp : (fun a =>
        (invokeEntry (exampleGraph n draw sq) env a).isSome) 4 = true := by
      show (invokeEntry (exampleGraph n draw sq) env 4).isSome = true
      rw [invokeEntryEx_4 n draw sq env]; rfl
    rw [@List.count_filter Nat _ _
      (fun a => (invokeEntry (exampleGraph n draw sq) env a).isSome) 4
      order hp]
    exact List.count_eq_one_of_mem hv.1
      (hv.2.1 4 (by rw [exampleGraph_len]; omega))
  · intro n draw env
    simp [exampleData, genData]
  · intro n
    exact ⟨rfl, rfl⟩

theorem spec_c5_witness :
    ((runPass (exampleGraph 1 drawZero sqId) statEnv1 ordA).invoked.map
      Prod.fst).count 4 = 1
    ∧ ((runPass (exampleGraph 1 drawZero sqId) statEnv1 ordB).invoked.map
        Prod.fst).count 9 ≤ 1 :=
  ⟨spec_c5_at_most_once.2.1 1 drawZero sqId statEnv1 ordA (by decide),
   spec_c5_at_most_once.1 Value String EnvEx (exampleGraph 1 drawZero sqId)
     statEnv1 ordB (by decide) 9⟩

theorem find_failed_none {nd : WNode V E Env}
    {cellOf : Nat → Cell V (TwError E)}
    (h : ∀ d ∈ nd.deps, ∃ v, cellOf d.1 = Cell.ready v) :
    (depCells nd cellOf).find? (fun p => p.2.isFailed) = none := by
  rw [List.find?_eq_none]
  intro p hp
  rw [depCells, List.mem_map] at hp
  obtain ⟨d, hd, rfl⟩ := hp
  obtain ⟨v, hv⟩ := h d hd
  rw [hv]
  simp [Cell.isFailed]

theorem all_ready_of_ready {nd : WNode V E Env}
    {cellOf : Nat → Cell V (TwError E)}
    (h : ∀ d ∈ nd.deps, ∃ v, cellOf d.1 = Cell.ready v) :
    depsAllReady nd cellOf = true := by
  rw [depsAllReady, List.all_eq_true]
  intro p hp
  rw [depCells, List.mem_map] at hp
  obtain ⟨d, hd, rfl⟩ := hp
  obtain ⟨v, hv⟩ := h d hd
  rw [hv]
  simp [Cell.isReady]

/-- C6: if a Node's compute fails during a pass, every Node with a
dependency path from it ends the pass `failed` with an upstream-failure
cause recorded in its cell and its compute is never invoked, while every
Node with no dependency path from the failed Node (whose computes succeed)
still executes and reaches `ready`; the failing Node's own cell records the
thrown error. -/
theorem spec_c6_failure_frontier :
    ∀ (V E Env : Type) (g : WGraph V E Env) (env : Env) (order : List Nat)
      (f : Nat) (e : E),
      ValidOrder g order → ∀ hf : f < g.nodes.length,
      (∀ args, (g.nodes.get ⟨f, hf⟩).compute env args = Except.error e) →
      (∀ i, (hi : i < g.nodes.length) → i ≠ f → ¬Desc g f i →
        ∀ args, ∃ v, (g.nodes.get ⟨i, hi⟩).compute env args = Except.ok v) →
      ((runPass g env order).cells f = Cell.failed (TwError.thrown e))
      ∧ (∀ i, Desc g f i →
          (∃ j, (runPass g env order).cells i
            = Cell.failed (TwError.upstream j))
          ∧ i ∉ (runPass g env order).invoked.map Prod.fst)
      ∧ (∀ i, i < g.nodes.length → i ≠ f → ¬Desc g f i →
          (∃ v, (runPass g env order).cells i = Cell.ready v)
          ∧ i ∈ (runPass g env order).invoked.map Prod.fst) := by
  intro V E Env g env order f e hv hf hferr hok
  have hready := evalCell_ready_of_not_desc g env f hok
  have hdepready : ∀ i, (hi : i < g.nodes.length) → ¬Desc g f i →
      ∀ d ∈ (g.nodes.get ⟨i, hi⟩).deps,
        ∃ v, evalCell g env d.1 = Cell.ready v := by
    intro i hi hnd d hd
    have hdmem : d ∈ depsOf g i := by rw [depsOf_lt g i hi]; exact hd
    have hdlt : d.1 < i := g.wf i hi d hd
    have hdne : d.1 ≠ f := by
      intro he
      exact hnd (Desc.single d hdmem he)
    have hdnd : ¬Desc g f d.1 := by
      intro hdesc
      exact hnd (Desc.tail hdesc d hdmem rfl)
    exact hready d.1 (Nat.lt_trans hdlt hi) hdne hdnd
  have hfnd : ¬Desc g f f := by
    intro hdesc
    exact absurd hdesc.lt (Nat.lt_irrefl f)
  have hffail : evalCell g env f = Cell.failed (TwError.thrown e) := by
    rw [evalCell_lt g env f hf, stepCell,
      find_failed_none (hdepready f hf hfnd),
      all_ready_of_ready (hdepready f hf hfnd)]
    rw [if_pos rfl, hferr (consumeArgs (g.nodes.get ⟨f, hf⟩) (evalCell g env))]
  have hdown := evalCell_failed_of_desc g env f (by rw [hffail]; rfl)
  refine ⟨?_, ?_, ?_⟩
  · rw [runPass_cells_eq g env order hv f hf]
    exact hffail
  · intro i hdesc
    have hilen : i < g.nodes.length := hdesc.lt_length
    obtain ⟨⟨j, hj⟩, hnone⟩ := hdown i hdesc
    constructor
    · rw [runPass_cells_eq g env order hv i hilen]
      exact ⟨j, hj⟩
    · intro hmem
      rw [List.mem_map] at hmem
      obtain ⟨p, hp, hfst⟩ := hmem
      have hargs : (i, p.2) ∈ (runPass g env order).invoked := by
        rw [← hfst]
        exact hp
      have := ((runPass_invoked_mem g env order hv i p.2).mp hargs).2
      rw [hnone] at this
      exact absurd this (by simp)
  · intro i hi hne hnd
    constructor
    · obtain ⟨v, hv2⟩ := hready i hi hne hnd
      rw [runPass_cells_eq g env order hv i hi]
      exact ⟨v, hv2⟩
    · rw [runPass_invoked_ids g env order hv]
      rw [List.mem_filter]
      refine ⟨hv.2.1 i hi, ?_⟩
      have hentry : invokeEntry g env i
          = some (i, consumeArgs (g.nodes.get ⟨i, hi⟩) (evalCell g env)) := by
        rw [invokeEntry, List.get?_eq_get hi]
        simp only
        rw [all_ready_of_ready (hdepready i hi hnd)]
        rfl
      rw [hentry]
      rfl

/-- The concrete failure scenario of spec §8: `root A = 1`,
`consume B(A) = raise("boom")`, `consume C(B) = B+1`, `root E = 5`. -/
def failNodes : List (WNode Value String Unit) :=
  [{ label := "A", deps := []
   , compute := fun _ _ => Except.ok (Value.num 1) },
   { label := "B", deps := [(0, BindMode.consume)]
   , compute := fun _ _ => Except.error "boom" },
   { label := "C", deps := [(1, BindMode.consume)]
   , compute := fun _ args => match args with
       | [Value.num xv] => Except.ok (Value.num (xv + 1))
       | _ => Except.error "argument mismatch" },
   { label := "E", deps := []
   , compute := fun _ _ => Except.ok (Value.num 5) }]

def failGraph : WGraph Value String Unit :=
  { nodes := failNodes, wf := by decide }

def ordC : List Nat := [0, 1, 2, 3]

theorem spec_c6_witness :
    ((runPass failGraph () ordC).cells 1
      = Cell.failed (TwError.thrown "boom"))
    ∧ (∃ j, (runPass failGraph () ordC).cells 2
        = Cell.failed (TwError.upstream j))
    ∧ 2 ∉ (runPass failGraph () ordC).invoked.map Prod.fst
    ∧ (∃ v, (runPass failGraph () ordC).cells 3 = Cell.ready v)
    ∧ 3 ∈ (runPass failGraph () ordC).invoked.map Prod.fst := by
  have hok : ∀ i, (hi : i < failGraph.nodes.length) → i ≠ 1 →
      ¬Desc failGraph 1 i →
      ∀ args, ∃ v, (failGraph.nodes.get ⟨i, hi⟩).compute () args
        = Except.ok v := by
    intro i hi hne hnd args
    have h4 : i < 4 := hi
    interval_cases i
    · exact ⟨Value.num 1, rfl⟩
    · exact absurd rfl hne
    · exact absurd (Desc.single (1, BindMode.consume) (by decide) rfl) hnd
    · exact ⟨Value.num 5, rfl⟩
  have h := spec_c6_failure_frontier Value String Unit failGraph () ordC 1
    "boom" (by decide) (by decide) (fun args => rfl) hok
  have hdesc2 : Desc failGraph 1 2 :=
    Desc.single (1, BindMode.consume) (by decide) rfl
  have hnd3 : ¬Desc failGraph 1 3 := by
    intro hdesc
    cases hdesc with
    | single d hd he => exact (List.not_mem_nil d) hd
    | tail hab d hd he => exact (List.not_mem_nil d) hd
  refine ⟨h.1, (h.2.1 2 hdesc2).1, (h.2.1 2 hdesc2).2,
    (h.2.2 3 (by decide) (by decide) hnd3).1,
    (h.2.2 3 (by decide) (by decide) hnd3).2⟩

/-- C7: the combinators only allocate the new Node and record edges —
`make_task` appends one node carrying the given label, edges and (still
unevaluated) computation and returns its id; `build_graph` records no
computation invocation, allocating exactly the ten nodes of the example
with their edges; and before the first "schedule all" pass no invocation
has been recorded and every result cell is still `pending`. -/
theorem spec_c7_construction_never_computes :
    ∀ (n : Nat) (draw : Nat → ℚ → ℚ → ℚ) (sq : ℚ → ℚ),
      (∀ (b : BuildState) (label : String) (deps : List (Nat × BindMode))
        (f : EnvEx → List Value → Except String Value),
        (mkTask b label deps f).1.nodes
          = b.nodes ++ [{ label := label, deps := deps, compute := f }]
        ∧ (mkTask b label deps f).1.execLog = b.execLog
        ∧ (mkTask b label deps f).2 = b.nodes.length)
      ∧ ((build_graph n draw sq).1.execLog = [])
      ∧ ((build_graph n draw sq).1.nodes.map (fun nd => (nd.label, nd.deps))
          = [("rand gen", []), ("sample size", []), ("alpha", []),
             ("beta", []),
             ("generate gamma", [(1, BindMode.consume), (2, BindMode.consume),
               (3, BindMode.consume), (0, BindMode.consume)]),
             ("average", [(4, BindMode.consume)]),
             ("stddev", [(4, BindMode.consume), (5, BindMode.consume)]),
             ("median", [(4, BindMode.consume)]),
             ("mode", [(4, BindMode.consume)]),
             ("aggregate results", [(5, BindMode.consume),
               (6, BindMode.consume), (7, BindMode.consume),
               (8, BindMode.consume)])])
      ∧ ((build_graph n draw sq).2 = 9)
      ∧ ((initPass : PassState Value String).invoked = [])
      ∧ (∀ i, (initPass : PassState Value String).cells i = Cell.pending) :=
  fun _ _ _ =>
    ⟨fun _ _ _ _ => ⟨rfl, rfl, rfl⟩, rfl, rfl, rfl, rfl, fun _ => rfl⟩

/-- C8: `mode` commits a run's count only when a different value follows
it, so the final maximal run of the sorted, truncated data is never counted:
for every input whose sorted form is `x :: rest`, if the truncation of the
last sorted element differs from the truncation of the first, `mode` does
not return the last run's value — even when that value is the most frequent
one; e.g. `mode {1, 2, 2}` returns 1 although 2 occurs most often. -/
theorem spec_c8_mode_misses_final_run :
    (∀ (l : List ℚ) (x lst : ℚ) (rest : List ℚ),
      sortQ l = x :: rest →
      (sortQ l).getLast? = some lst →
      truncQ lst ≠ truncQ x →
      (∀ z ∈ (sortQ l).map truncQ,
        ((sortQ l).map truncQ).count z
          ≤ ((sortQ l).map truncQ).count (truncQ lst)) →
      modeAccess l ≠ some (truncQ lst))
    ∧ modeAccess [1, 2, 2] = some 1 := by
  constructor
  · intro l x lst rest hs hlast hdiff _
    exact mode_skips_last_run l x lst rest hs hlast (fun he => hdiff he.symm)
  · decide

theorem spec_c8_witness :
    sortQ [1, 2, 2] = 1 :: [2, 2]
    ∧ (sortQ [1, 2, 2]).getLast? = some 2
    ∧ truncQ 2 ≠ truncQ 1
    ∧ modeAccess [1, 2, 2] ≠ some (truncQ 2)
    ∧ modeAccess [1, 2, 2] = some 1 := by
  refine ⟨by decide, by decide, by decide, ?_, by decide⟩
  exact spec_c8_mode_misses_final_run.1 [1, 2, 2] 1 2 [2, 2] (by decide)
    (by decide) (by decide) (by decide)

/-- C9: the statistical helpers require non-empty data — reachable with
`sample_size = 0`, where `generate_gamma` yields the empty vector: on it,
`mode` reads the first element of an empty copy and `median` indexes out of
bounds (both modelled as `none`), and `average` divides by a zero element
count; on any vector with at least one element all element accesses of
`mode` and `median` are in bounds and `average`'s divisor is nonzero. -/
theorem spec_c9_nonempty_required :
    (modeAccess ([] : List ℚ) = none)
    ∧ (medianAccess ([] : List ℚ) = none)
    ∧ (averageDenom ([] : List ℚ) = 0)
    ∧ (∀ (draw : Nat → ℚ → ℚ → ℚ) (pos : Nat) (a b : ℚ),
        genData draw pos 0 a b = [])
    ∧ (∀ l : List ℚ, l ≠ [] →
        (modeAccess l).isSome = true
        ∧ (medianAccess l).isSome = true
        ∧ averageDenom l ≠ 0) := by
  refine ⟨rfl, rfl, rfl, fun _ _ _ _ => rfl, ?_⟩
  intro l hne
  have hlen : 0 < l.length := List.length_pos.mpr hne
  have hslen : (sortQ l).length = l.length :=
    List.length_insertionSort _ l
  refine ⟨?_, ?_, ?_⟩
  · rw [modeAccess]
    cases hc : sortQ l with
    | nil =>
      rw [hc] at hslen
      rw [← hslen] at hlen
      exact absurd hlen (by simp)
    | cons x rest => rfl
  · rw [medianAccess]
    by_cases hpar : l.length % 2 = 0
    · rw [if_pos hpar]
      have hge2 : 2 ≤ l.length := by omega
      have hi1 : l.length / 2 - 1 < (sortQ l).length := by
        rw [hslen]; omega
      have hi2 : l.length / 2 < (sortQ l).length := by
        rw [hslen]; omega
      rw [List.get?_eq_get hi1, List.get?_eq_get hi2]
      rfl
    · rw [if_neg hpar]
      have hi : l.length / 2 < (sortQ l).length := by
        rw [hslen]; omega
      rw [List.get?_eq_get hi]
      rfl
  · rw [averageDenom]
    intro hc
    rw [Nat.cast_eq_zero] at hc
    omega

theorem spec_c9_witness :
    ([(5 : ℚ)] ≠ [])
    ∧ (modeAccess [(5 : ℚ)]).isSome = true
    ∧ (medianAccess [(5 : ℚ)]).isSome = true
    ∧ averageDenom [(5 : ℚ)] ≠ 0 := by
  have h := spec_c9_nonempty_required.2.2.2.2 [(5 : ℚ)] (by decide)
  exact ⟨by decide, h.1, h.2.1, h.2.2⟩

/-!  C10: the call-level model of the helpers.  Each call receives the
contents of the heap cell the shared `data` pointer refers to and returns
its result together with the cell's contents after the call.  Following the
source, `median` and `mode` sort a local copy (`auto copy = *data`,
lines 36 and 45) and `average` and `stddev` only read, so no call writes
through the pointer. -/

def averageCall (heap : List ℚ) : ℚ × List ℚ :=
  (average heap, heap)

def stddevCall (sq : ℚ → ℚ) (heap : List ℚ) (avg : ℚ) : ℚ × List ℚ :=
  (stddev sq heap avg, heap)

def medianCall (heap : List ℚ) : ℚ × List ℚ :=
  ((medianAccess heap).getD 0, heap)

def modeCall (heap : List ℚ) : ℤ × List ℚ :=
  ((modeAccess heap).getD 0, heap)

/-- C10: none of `average`, `stddev`, `median` or `mode` modifies the vector
the shared data pointer refers to: after any of the four calls the pointed-to
contents equal the contents before the call, while `median` and `mode`
compute their results from the sorted private copy. -/
theorem spec_c10_helpers_preserve_data :
    ∀ (sq : ℚ → ℚ) (heap : List ℚ) (avg : ℚ),
      (averageCall heap).2 = heap
      ∧ (stddevCall sq heap avg).2 = heap
      ∧ (medianCall heap).2 = heap
      ∧ (modeCall heap).2 = heap
      ∧ (medianCall heap).1 = (medianAccess heap).getD 0
      ∧ (modeCall heap).1 = (modeAccess heap).getD 0 :=
  fun _ _ _ => ⟨rfl, rfl, rfl, rfl, rfl, rfl⟩
